import Mathlib

/-!
# Verification of the ecsdb entity-component store core

Shallow embedding of the ecsdb repository (Rust): the SQLite value domain,
the storage codecs (`src/component.rs`), the custom scalar extraction
function (`src/sqlite_ext.rs`), the filter IR and its SQL compiler
(`src/query/ir.rs`), the typed query combinator translations
(`src/query/mod.rs`), the derive macro's storage-strategy selection
(`ecsdb_derive/src/lib.rs`), and the entity attach/read operations
(`src/entity.rs`).

Machine integers (`i64` entity ids) are modelled as `Int`; SQLite REAL
values carry a `Rat` payload standing for the numeric value of the stored
double.  Fallible Rust code returns `Except`; the panicking convenience
wrappers are modelled with an explicit `PanicOr` result type.
-/

namespace Ecsdb

/-- SQLite value domain (`rusqlite::types::Value`): one of null, 64-bit
integer, real, UTF-8 text, or blob. -/
inductive Value where
  | null
  | integer (i : Int)
  | real (r : Rat)
  | text (s : String)
  | blob (b : List UInt8)
deriving DecidableEq, Repr

/-- The five storage classes of a SQLite value. -/
inductive ValueKind where
  | null | integer | real | text | blob
deriving DecidableEq, Repr

/-- Kind (storage class) of a value. -/
def Value.kind : Value → ValueKind
  | .null => .null
  | .integer _ => .integer
  | .real _ => .real
  | .text _ => .text
  | .blob _ => .blob

/-- JSON values as produced by `serde_json` (numbers are either `i64`
integers or doubles, the latter modelled by their rational value). -/
inductive JsonValue where
  | null
  | bool (b : Bool)
  | numInt (i : Int)
  | numReal (r : Rat)
  | str (s : String)
  | arr (elems : List JsonValue)
  | obj (fields : List (String × JsonValue))

/-- JSON string escaping (backslash and double quote). -/
def escapeJsonString (s : String) : String :=
  s.foldl (fun acc c =>
    if c = '\\' then acc ++ "\x5c\x5c"
    else if c = '"' then acc ++ "\x5c\x22"
    else acc.push c) ""

mutual

/-- Serialization of a JSON value to text (`serde_json`'s `to_string`,
used by the extraction function for arrays and objects). -/
def JsonValue.render : JsonValue → String
  | .null => "null"
  | .bool true => "true"
  | .bool false => "false"
  | .numInt i => toString i
  | .numReal r => toString r
  | .str s => "\"" ++ escapeJsonString s ++ "\""
  | .arr elems => "[" ++ renderList elems ++ "]"
  | .obj fields => "\x7b" ++ renderFields fields ++ "\x7d"

/-- Comma-separated rendering of array elements. -/
def JsonValue.renderList : List JsonValue → String
  | [] => ""
  | [x] => x.render
  | x :: xs => x.render ++ "," ++ renderList xs

/-- Comma-separated rendering of object fields. -/
def JsonValue.renderFields : List (String × JsonValue) → String
  | [] => ""
  | [(k, v)] => "\"" ++ escapeJsonString k ++ "\":" ++ v.render
  | (k, v) :: xs => "\"" ++ escapeJsonString k ++ "\":" ++ v.render ++ "," ++ renderFields xs

end

/-- The scalar conversion applied to a decoded JSON value inside
`velodb_extract_data` (`src/sqlite_ext.rs` lines 24-36): JSON null maps to
SQL null, booleans to the integers 1/0, numbers to their native integer or
real value, strings to text, and arrays/objects to their serialized text. -/
def jsonToSqliteValue : JsonValue → Value
  | .null => .null
  | .bool true => .integer 1
  | .bool false => .integer 0
  | .numInt i => .integer i
  | .numReal r => .real r
  | .str s => .text s
  | .arr elems => .text (JsonValue.arr elems).render
  | .obj fields => .text (JsonValue.obj fields).render

/-- A JSON parser (the foreign `serde_json::from_slice`); the extraction
function and the codecs are parameterized over it. -/
abbrev JsonParser := String → Except String JsonValue

/-- The custom scalar function `velodb_extract_data`
(`src/sqlite_ext.rs`): null/integer/real pass through, blobs extract as
null, text is parsed as JSON and converted to a natively comparable
scalar; a JSON parse failure is a user-function error. -/
def velodb_extract_data (p : JsonParser) : Value → Except String Value
  | .null => .ok .null
  | .integer i => .ok (.integer i)
  | .real r => .ok (.real r)
  | .blob _ => .ok .null
  | .text t => (p t).map jsonToSqliteValue

/-! ## Storage codecs (`src/component.rs`) -/

/-- Typed storage error (`StorageError(String)` in `src/component.rs`). -/
structure StorageError where
  msg : String
deriving DecidableEq, Repr

/-- The structural (serde) serialization of a component type `α`: the
foreign `serde_json::to_string` / `serde_json::from_slice` pair a
`Serialize + DeserializeOwned` type provides. -/
structure JsonCodec (α : Type) where
  toJson : α → String
  fromJson : String → Except String α

/-- The byte-level conversion of a component type `α`: the `AsRef<[u8]>` /
`From<Vec<u8>>` pair a blob-stored type provides. -/
structure BlobCodec (α : Type) where
  asBytes : α → List UInt8
  fromBytes : List UInt8 → α

/-- `JsonStorage as ComponentWrite`: serialize to JSON and store as text. -/
def JsonStorage.to_rusqlite (c : JsonCodec α) (v : α) : Except StorageError Value :=
  .ok (.text (c.toJson v))

/-- `JsonStorage as ComponentRead`: accept only text, parse it as JSON. -/
def JsonStorage.from_rusqlite (c : JsonCodec α) : Value → Except StorageError α
  | .text s => (c.fromJson s).mapError StorageError.mk
  | other => .error ⟨"Unexpected type " ++ toString (repr other)⟩

/-- `BlobStorage as ComponentWrite`: store the byte view as a blob. -/
def BlobStorage.to_rusqlite (c : BlobCodec α) (v : α) : Except StorageError Value :=
  .ok (.blob (c.asBytes v))

/-- `BlobStorage as ComponentRead`: accept only blobs, rebuild via `From<Vec<u8>>`. -/
def BlobStorage.from_rusqlite (c : BlobCodec α) : Value → Except StorageError α
  | .blob b => .ok (c.fromBytes b)
  | other => .error ⟨"Unexpected type " ++ toString (repr other)⟩

/-- `NullStorage as ComponentWrite`: encoding ignores the value and always
produces null. -/
def NullStorage.to_rusqlite (_v : α) : Except StorageError Value :=
  .ok .null

/-- `NullStorage as ComponentRead`: accept only null, yield
`serde_json::from_str("null")` of the component type. -/
def NullStorage.from_rusqlite (c : JsonCodec α) : Value → Except StorageError α
  | .null => (c.fromJson "null").mapError StorageError.mk
  | other => .error ⟨"Unexpected type " ++ toString (repr other)⟩

/-! ## Derive-macro storage selection (`ecsdb_derive/src/lib.rs`) -/

/-- The `Storage` enum of the derive macro; `Json` is the default. -/
inductive Storage where
  | json | blob | null
deriving DecidableEq, Repr

/-- The `Name` enum of the derive macro; `Derived` is the default. -/
inductive DeriveName where
  | derived
  | custom (s : String)
deriving DecidableEq, Repr

/-- The `Attributes` struct accumulated by `extract_attributes`. -/
structure Attributes where
  storage : Storage
  name : DeriveName
deriving DecidableEq, Repr

/-- `Attributes::default()`. -/
def Attributes.default : Attributes := ⟨.json, .derived⟩

/-- One parsed `Meta` item inside a `#[component(...)]` attribute. -/
inductive AttrMeta where
  | storageAttr (value : String)
  | nameAttr (value : String)
  | otherAttr (ident : String)
deriving DecidableEq, Repr

/-- The field shape of a struct (`syn::Fields`): unit (`struct S;`),
named (`struct S { .. }`), or unnamed (`struct S(..);`) with the number
of declared fields. -/
inductive FieldsShape where
  | unit
  | named (fieldCount : Nat)
  | unnamed (fieldCount : Nat)
deriving DecidableEq, Repr

/-- The data shape of the derive input (`syn::Data`). -/
inductive DataShape where
  | struc (fields : FieldsShape)
  | enum
  | union
deriving DecidableEq, Repr

/-- The derive input as far as storage selection is concerned: the data
shape and, when a `#[component(...)]` attribute is present, its parsed
meta items. -/
structure DeriveInput where
  data : DataShape
  componentAttr : Option (List AttrMeta)
deriving DecidableEq, Repr

/-- One iteration of the meta loop inside `extract_attributes`
(`ecsdb_derive/src/lib.rs`): a `storage` meta accepts only `"json"` and
`"blob"` (anything else panics, modelled as `Except.error`), a `name`
meta sets a custom name, any other meta panics. -/
def extractAttributesStep (attributes : Attributes) (meta : AttrMeta) :
    Except String Attributes :=
  match meta with
  | .storageAttr v =>
    if v = "json" then .ok { attributes with storage := .json }
    else if v = "blob" then .ok { attributes with storage := .blob }
    else .error ("storage " ++ v ++ " not supported")
  | .nameAttr v => .ok { attributes with name := .custom v }
  | .otherAttr ident => .error ("Unsupported attribute " ++ ident)

/-- `extract_attributes` (`ecsdb_derive/src/lib.rs`): fold the meta items
of the `component` attribute into `Attributes`, starting from the
defaults. -/
def extractAttributes (attr? : Option (List AttrMeta)) : Except String Attributes :=
  match attr? with
  | none => .ok Attributes.default
  | some metas => metas.foldlM extractAttributesStep Attributes.default

/-- The storage-strategy selection of `impl_derive_component`
(`ecsdb_derive/src/lib.rs` lines 46-75): extract the attributes, then
force the null strategy whenever the input is a unit struct. -/
def selectStorage (input : DeriveInput) : Except String Storage := do
  let attributes ← extractAttributes input.componentAttr
  match input.data with
  | .struc .unit => pure Storage.null
  | _ => pure attributes.storage

/-! ## Component table and entity operations (`src/entity.rs`) -/

/-- One row of the `components` table:
`(entity, component, data, last_modified)`, primary key `(entity,
component)`.  `last_modified` is an abstract timestamp (`Nat`). -/
structure Row where
  entity : Int
  component : String
  data : Value
  lastModified : Nat
deriving DecidableEq, Repr

/-- The `components` table. -/
abbrev Store := List Row

/-- Lookup of the row with primary key `(e, c)` (first match; the
uniqueness invariant makes it the only one). -/
def findRow (s : Store) (e : Int) (c : String) : Option Row :=
  s.find? (fun r => r.entity == e && r.component == c)

/-- One executed upsert of `Entity::try_attach` (`src/entity.rs` lines
251-279): `insert into components (entity, component, data) values
(?1, ?2, ?3) on conflict (entity, component) do update set data =
excluded.data where data is not excluded.data`.

Modelled from the spec: `schema.sql`, which maintains the
`last_modified` column, is not among the reviewed sources; per the spec
(§3, §5) `last_modified` is set to the current time exactly when the
insert, or an update actually executed by the engine, writes the row. -/
def entityAttachRow (now : Nat) (s : Store) (e : Int) (c : String) (v : Value) : Store :=
  match findRow s e c with
  | none => s ++ [⟨e, c, v, now⟩]
  | some _ =>
    s.map (fun r =>
      if r.entity == e && r.component == c then
        if r.data ≠ v then { r with data := v, lastModified := now } else r
      else r)

/-- `Entity::try_attach` over a bundle: one upsert per member, members
with absent (`None`) data are skipped. -/
def entityAttach (now : Nat) (s : Store) (e : Int)
    (bundle : List (String × Option Value)) : Store :=
  bundle.foldl (fun s cd =>
    match cd.2 with
    | some v => entityAttachRow now s e cd.1 v
    | none => s) s

/-- `coalesce(?1, max(entity)+1, 100)`: the auto-allocation rule for the
entity id when the caller supplies none. -/
def maxEntity : Store → Option Int
  | [] => none
  | r :: rs =>
    some (match maxEntity rs with
      | none => r.entity
      | some m => max r.entity m)

/-- Auto-allocated entity id: `max(entity)+1`, or the base 100 when the
table is empty. -/
def allocEntityId (s : Store) : Int :=
  match maxEntity s with
  | none => 100
  | some m => m + 1

/-- One executed insert of `NewEntity::try_attach` (`src/entity.rs` lines
320-359): `insert into components (entity, component, data) values
((select coalesce(?1, max(entity)+1, 100) from components), ?2, ?3) on
conflict (entity, component) do update set data = excluded.data returning
entity`.  Unlike `Entity::try_attach`, the conflict update carries no
`where data is not excluded.data` guard, so it always writes the row.

`last_modified` is modelled from the spec exactly as in
`entityAttachRow`: it is refreshed whenever the row is written. -/
def newEntityAttachRow (now : Nat) (s : Store) (eid? : Option Int) (c : String)
    (v : Value) : Store × Int :=
  let eid := match eid? with
    | some e => e
    | none => allocEntityId s
  match findRow s eid c with
  | none => (s ++ [⟨eid, c, v, now⟩], eid)
  | some _ =>
    (s.map (fun r =>
      if r.entity == eid && r.component == c then
        { r with data := v, lastModified := now }
      else r), eid)

/-- `NewEntity::try_attach` over a bundle: the first executed insert
allocates the entity id (the `?1` parameter is null for it), every later
member passes the allocated id explicitly; members with absent data are
skipped.  Returns the store and the allocated id (none when no member was
written, the case the source turns into a panic). -/
def newEntityAttachStep (now : Nat) (acc : Store × Option Int)
    (cd : String × Option Value) : Store × Option Int :=
  match cd.2 with
  | some v =>
    let se := newEntityAttachRow now acc.1 acc.2 cd.1 v
    (se.1, some se.2)
  | none => acc

def newEntityAttach (now : Nat) (s : Store)
    (bundle : List (String × Option Value)) : Store × Option Int :=
  bundle.foldl (newEntityAttachStep now) (s, none)

/-- The error taxonomy of the crate (`Error` in `src/lib.rs`): a database
error or a typed component storage error. -/
inductive EcsError where
  | database (msg : String)
  | componentStorage (e : StorageError)
deriving DecidableEq, Repr

/-- `Entity::try_component` (`src/entity.rs` lines 142-160): select the
`(entity, component)` row, decode its data with the component's storage
strategy; a decode failure surfaces as a typed storage error. -/
def tryComponent (dec : Value → Except StorageError α) (s : Store) (e : Int)
    (name : String) : Except EcsError (Option α) :=
  match findRow s e name with
  | none => .ok none
  | some r =>
    match dec r.data with
    | .ok c => .ok (some c)
    | .error err => .error (.componentStorage err)

/-- Result of a Rust computation that may panic. -/
inductive PanicOr (α : Type) where
  | panic (msg : String)
  | ok (a : α)
deriving DecidableEq, Repr

/-- `Entity::component` (`src/entity.rs` lines 135-140): the infallible
convenience wrapper; it panics on a storage error. -/
def componentUnwrap (dec : Value → Except StorageError α) (s : Store) (e : Int)
    (name : String) : PanicOr (Option α) :=
  match tryComponent dec s e name with
  | .ok c => .ok c
  | .error _ => .panic ("Failed to get Component " ++ name)

/-! ## Filter IR and SQL compiler (`src/query/ir.rs`) -/

/-- The filter IR (`FilterExpression` in `src/query/ir.rs`). -/
inductive FilterExpression where
  | none
  | and (exprs : List FilterExpression)
  | or (exprs : List FilterExpression)
  | entityId (id : Int)
  | withComponent (c : String)
  | withoutComponent (c : String)
  | withComponentData (c : String) (value : Value)
  | withComponentDataRange (component : String) (start stop : Value)

/-- The `*e != None` test used by the simplification pass. -/
def FilterExpression.isNone : FilterExpression → Bool
  | .none => true
  | _ => false

mutual

/-- `FilterExpression::simplify`: recursively drop `None` members from
`And`/`Or` lists (the source filters the members and then simplifies each
survivor; `simplifyMembers` performs both in one structural pass). -/
def FilterExpression.simplify : FilterExpression → FilterExpression
  | .or exprs => .or (FilterExpression.simplifyMembers exprs)
  | .and exprs => .and (FilterExpression.simplifyMembers exprs)
  | other => other

/-- Drop `None` members of an `And`/`Or` list and simplify the rest. -/
def FilterExpression.simplifyMembers : List FilterExpression → List FilterExpression
  | [] => []
  | e :: es =>
    if e.isNone then FilterExpression.simplifyMembers es
    else e.simplify :: FilterExpression.simplifyMembers es

end

/-- A compiled SQL fragment: the SQL text plus the ordered
`(placeholder-name, bound-value)` list (`SqlFragment` in
`src/query/ir.rs`; the phantom kind tag is dropped). -/
structure SqlFragment where
  sql : String
  placeholders : List (String × Value)
deriving DecidableEq, Repr

/-- The fragment `FilterExpression::None` compiles to: the trivial
predicate `true` with no placeholders. -/
def noneFragment : SqlFragment := ⟨"true", []⟩

/-- The placeholder renaming pass of `SqlFragment::rename_identifier`,
specialized (as in its only caller `combine_exprs`) to the shared-counter
`rename_fn` that yields `:1`, `:2`, …: applying the renaming function to
each placeholder in list order gives the `(old, new)` association and the
advanced counter. -/
def renamePairs : List (String × Value) → Nat → List (String × String) × Nat
  | [], c => ([], c)
  | (p, _) :: ps, c =>
    let (rest, c') := renamePairs ps (c + 1)
    ((p, ":" ++ toString (c + 1)) :: rest, c')

/-- Insertion into a `BTreeMap<String, String>` modelled as an
association list sorted by key; an existing key is overwritten. -/
def btreeInsert : List (String × String) → String × String → List (String × String)
  | [], kv => [kv]
  | (k, v) :: rest, kv =>
    if kv.1 < k then kv :: (k, v) :: rest
    else if kv.1 = k then (kv.1, kv.2) :: rest
    else (k, v) :: btreeInsert rest kv

/-- `collect::<BTreeMap<_, _>>()` over the renaming pairs. -/
def btreeOfPairs (pairs : List (String × String)) : List (String × String) :=
  pairs.foldl btreeInsert []

/-- `SqlFragment::rename_identifier` (`src/query/ir.rs` lines 271-291)
with the shared-counter rename function of `combine_exprs`: build the
old-to-new mapping (a `BTreeMap`, so iteration for the SQL rewriting is
in sorted key order), rewrite the SQL text in two passes through the
intermediate markers `:0:`, `:1:`, …, and rewrite the placeholder list
through the mapping (`mappings[placeholder]`; every placeholder has a
mapping by construction, so the `getD` default is unreachable). -/
def SqlFragment.renameIdentifier (f : SqlFragment) (ctr : Nat) : SqlFragment × Nat :=
  let pc := renamePairs f.placeholders ctr
  let mappings := btreeOfPairs pc.1
  let sql := mappings.enum.foldl
    (fun s iab => s.replace iab.2.1 (":" ++ toString iab.1 ++ ":")) f.sql
  let sql := mappings.enum.foldl
    (fun s iab => s.replace (":" ++ toString iab.1 ++ ":") iab.2.2) sql
  let placeholders := f.placeholders.map
    (fun pv => ((mappings.lookup pv.1).getD pv.1, pv.2))
  (⟨sql, placeholders⟩, pc.2)

/-- `FilterExpression::combine_exprs` (`src/query/ir.rs` lines 206-242)
on the already-compiled child fragments: an empty list compiles to the
`None` fragment; otherwise each child's placeholders are renamed through
the single shared counter, the SQL texts are joined with the connective
and parenthesized, and the placeholder lists are concatenated. -/
def combineStep (via : String) (acc : SqlFragment × Nat) (fr : SqlFragment) :
    SqlFragment × Nat :=
  let rn := fr.renameIdentifier acc.2
  (⟨acc.1.sql ++ " " ++ via ++ " " ++ rn.1.sql,
    acc.1.placeholders ++ rn.1.placeholders⟩, rn.2)

def combineFragments (via : String) (frags : List SqlFragment) : SqlFragment :=
  match frags with
  | [] => noneFragment
  | first :: rest =>
    let folded := rest.foldl (combineStep via) (first.renameIdentifier 0)
    ⟨"(" ++ folded.1.sql ++ ")", folded.1.placeholders⟩

mutual

/-- `FilterExpression::where_clause` (`src/query/ir.rs` lines 127-204):
compile one IR node to a WHERE fragment. -/
def FilterExpression.whereClause : FilterExpression → SqlFragment
  | .none => noneFragment
  | .withComponent c =>
    ⟨"entity in (select entity from components where component = ?1)",
      [("?1", .text c)]⟩
  | .withoutComponent c =>
    ⟨"entity not in (select entity from components where component = ?1)",
      [("?1", .text c)]⟩
  | .entityId id => ⟨"entity = ?1", [("?1", .integer id)]⟩
  | .withComponentData component data =>
    if data = .null then
      ⟨"entity in (select entity from components where component = ?1 and data is null)",
        [("?1", .text component)]⟩
    else
      ⟨"entity in (select entity from components where component = ?1 and data = ?2)",
        [("?1", .text component), ("?2", data)]⟩
  | .withComponentDataRange component start stop =>
    let (rangeFilterCondition, params) :=
      match start, stop with
      | .null, .null => ("data is null", ([] : List (String × Value)))
      | .null, stop =>
        ("velodb_extract_data(data) <= velodb_extract_data(?2)", [("?2", stop)])
      | start, .null =>
        ("velodb_extract_data(data) >= velodb_extract_data(?2)", [("?2", start)])
      | start, stop =>
        ("velodb_extract_data(data) between velodb_extract_data(?2) and velodb_extract_data(?3)",
          [("?2", start), ("?3", stop)])
    ⟨"entity in (select entity from components where component = ?component and "
        ++ rangeFilterCondition ++ ")",
      params ++ [("?component", .text component)]⟩
  | .and exprs => combineFragments "and" (FilterExpression.whereClauseList exprs)
  | .or exprs => combineFragments "or" (FilterExpression.whereClauseList exprs)

/-- The child fragments of an `And`/`Or` node (the `exprs.map(|e|
e.where_clause())` iterator of `combine_exprs`). -/
def FilterExpression.whereClauseList : List FilterExpression → List SqlFragment
  | [] => []
  | e :: es => e.whereClause :: FilterExpression.whereClauseList es

end

/-- `FilterExpression::sql_query`: wrap the WHERE fragment into the full
select. -/
def FilterExpression.sqlQuery (f : FilterExpression) : SqlFragment :=
  let filter := f.whereClause
  ⟨"select distinct entity from components where " ++ filter.sql,
    filter.placeholders⟩

/-! ## SQLite value comparison and the semantics of compiled filters

The evaluation rules below are the clause-by-clause reading of the SQL
text produced by `whereClause`, under SQLite's comparison semantics:
integers and reals compare numerically, text by ordinary string order,
blobs bytewise; across storage classes numerics sort before text before
blobs; any comparison against NULL is unknown and therefore does not
match in a WHERE clause. -/

/-- Numeric view of a value (integers and reals). -/
def Value.numValue : Value → Option Rat
  | .integer i => some (i : Rat)
  | .real r => some r
  | _ => none

/-- Storage-class rank used for cross-class comparisons. -/
def Value.kindRank : Value → Nat
  | .null => 0
  | .integer _ => 1
  | .real _ => 1
  | .text _ => 2
  | .blob _ => 3

/-- Bytewise (memcmp) comparison of blobs. -/
def compareBytes : List UInt8 → List UInt8 → Ordering
  | [], [] => .eq
  | [], _ :: _ => .lt
  | _ :: _, [] => .gt
  | a :: as, b :: bs =>
    match compare a b with
    | .eq => compareBytes as bs
    | o => o

/-- SQLite ordering of two non-null values. -/
def sqliteCompare (a b : Value) : Ordering :=
  match a.numValue, b.numValue with
  | some x, some y => compare x y
  | _, _ =>
    match a, b with
    | .text s, .text t => compare s t
    | .blob x, .blob y => compareBytes x y
    | _, _ => compare a.kindRank b.kindRank

/-- Is this value NULL? -/
def Value.isNull : Value → Bool
  | .null => true
  | _ => false

/-- SQL `a >= b` as a WHERE-clause truth value: unknown (hence no match)
when either side is NULL. -/
def sqliteGe (a b : Value) : Bool :=
  !a.isNull && !b.isNull && sqliteCompare a b ≠ Ordering.lt

/-- SQL `a <= b` as a WHERE-clause truth value. -/
def sqliteLe (a b : Value) : Bool :=
  !a.isNull && !b.isNull && sqliteCompare a b ≠ Ordering.gt

/-- SQL `a = b` as a WHERE-clause truth value. -/
def sqliteEqVal (a b : Value) : Bool :=
  !a.isNull && !b.isNull && sqliteCompare a b == Ordering.eq

/-- `velodb_extract_data` as used in WHERE evaluation: `none` when the
user function errors (an invalid JSON text; the engine aborts the query
there, so no row matches through it). -/
def extractOrd (p : JsonParser) (v : Value) : Option Value :=
  match velodb_extract_data p v with
  | .ok x => some x
  | .error _ => none

/-- `some x >= some y` on extraction results, unknown otherwise. -/
def optGe (a b : Option Value) : Bool :=
  match a, b with
  | some x, some y => sqliteGe x y
  | _, _ => false

/-- `some x <= some y` on extraction results, unknown otherwise. -/
def optLe (a b : Option Value) : Bool :=
  match a, b with
  | some x, some y => sqliteLe x y
  | _, _ => false

mutual

/-- Denotational semantics of the WHERE clause compiled for a filter
expression, for the row entity `e` of the outer
`select distinct entity from components where …` scan. -/
def evalWhere (p : JsonParser) (s : Store) (e : Int) : FilterExpression → Bool
  | .none => true
  | .withComponent c =>
    s.any (fun r => r.entity == e && r.component == c)
  | .withoutComponent c =>
    !(s.any (fun r => r.entity == e && r.component == c))
  | .entityId id => e == id
  | .withComponentData c v =>
    if v = .null then
      s.any (fun r => r.entity == e && r.component == c && r.data == Value.null)
    else
      s.any (fun r => r.entity == e && r.component == c && sqliteEqVal r.data v)
  | .withComponentDataRange c start stop =>
    match start, stop with
    | .null, .null =>
      s.any (fun r => r.entity == e && r.component == c && r.data == Value.null)
    | .null, stop =>
      s.any (fun r => r.entity == e && r.component == c &&
        optLe (extractOrd p r.data) (extractOrd p stop))
    | start, .null =>
      s.any (fun r => r.entity == e && r.component == c &&
        optGe (extractOrd p r.data) (extractOrd p start))
    | start, stop =>
      s.any (fun r => r.entity == e && r.component == c &&
        (optGe (extractOrd p r.data) (extractOrd p start) &&
         optLe (extractOrd p r.data) (extractOrd p stop)))
  | .and exprs => evalWhereAll p s e exprs
  | .or exprs => evalWhereAny p s e exprs

/-- Conjunction of the children's clauses (`… and …`); the empty list is
the trivial predicate `true` (`combine_exprs` on no fragments). -/
def evalWhereAll (p : JsonParser) (s : Store) (e : Int) : List FilterExpression → Bool
  | [] => true
  | f :: fs => evalWhere p s e f && evalWhereAll p s e fs

/-- Disjunction of the children's clauses (`… or …`); the empty list is
the trivial predicate `true` (`combine_exprs` on no fragments compiles to
the `None` fragment, i.e. `true`). -/
def evalWhereAny (p : JsonParser) (s : Store) (e : Int) : List FilterExpression → Bool
  | [] => true
  | [f] => evalWhere p s e f
  | f :: fs => evalWhere p s e f || evalWhereAny p s e fs

end

/-- The result set of `select distinct entity from components where …`:
the distinct entities having at least one row, whose compiled clause
holds (the engine additionally sorts; membership is order-independent). -/
def queryEntities (p : JsonParser) (s : Store) (f : FilterExpression) : List Int :=
  ((s.filter (fun r => evalWhere p s r.entity f)).map (fun r => r.entity)).dedup

/-! ## Typed query algebra translations (`src/query/mod.rs`)

The zero-sized combinator types translate to IR nodes by the
`QueryFilter`/`QueryFilterValue`/`QueryData` impls; each is a mechanical
function of the component names and payloads involved. -/

/-- `QueryFilter for With<C>`: `with_component(C::component_name())`. -/
def withFilterExpression (name : String) : FilterExpression :=
  .withComponent name

/-- `QueryFilter for Without<C>`: `without_component(C::component_name())`. -/
def withoutFilterExpression (name : String) : FilterExpression :=
  .withoutComponent name

/-- `QueryFilter for Or<(..)>`: `Or` of the members' expressions. -/
def orFilterExpression (fs : List FilterExpression) : FilterExpression :=
  .or fs

/-- `QueryFilter for (..)` tuples: `And` of the members' expressions. -/
def tupleFilterExpression (fs : List FilterExpression) : FilterExpression :=
  .and fs

/-- `QueryFilter for AnyOf<C>`: `Or` of `with_component` per bundle name. -/
def anyOfFilterExpression (names : List String) : FilterExpression :=
  .or (names.map .withComponent)

/-- `QueryFilterValue for C`: equality on the encoded component value. -/
def componentDataFilterExpression (name : String) (value : Value) : FilterExpression :=
  .withComponentData name value

/-- `QueryFilterValue for Range<C>`: both bounds encoded. -/
def rangeFilterExpression (name : String) (start stop : Value) : FilterExpression :=
  .withComponentDataRange name start stop

/-- `QueryFilterValue for RangeFrom<C>`: a start bound and a null end. -/
def rangeFromFilterExpression (name : String) (start : Value) : FilterExpression :=
  .withComponentDataRange name start .null

/-- `QueryFilterValue for RangeTo<C>`: a null start and an end bound. -/
def rangeToFilterExpression (name : String) (stop : Value) : FilterExpression :=
  .withComponentDataRange name .null stop

/-- `Query::as_sql_query` (`src/query/mod.rs` lines 118-131): the
conjunction of the data shape's, the filter's, and the filter value's
expressions. -/
def asSqlQueryFilter (dataExpr filterExpr valueExpr : FilterExpression) : FilterExpression :=
  .and [dataExpr, filterExpr, valueExpr]

/-- The entity set of a query with shape `()` and value `()` and the
given `QueryFilter` (what `Ecs::query::<F>()` runs). -/
def queryFilterEntities (p : JsonParser) (s : Store) (filterExpr : FilterExpression) : List Int :=
  queryEntities p s (asSqlQueryFilter .none filterExpr .none)

/-- Consumption of the iterator `try_iter` returns for a query whose
shape is a single component (`src/query/mod.rs` lines 90-92):
`try_entities()?.filter_map(|e| D::from_entity(e))` where `from_entity`
for a component shape is the infallible `e.component::<C>()` — a decode
failure while pulling results therefore panics. -/
def consumeIter (dec : Value → Except StorageError α) (s : Store) (name : String) :
    List Int → PanicOr (List α)
  | [] => .ok []
  | e :: es =>
    match componentUnwrap dec s e name with
    | .panic m => .panic m
    | .ok Option.none => consumeIter dec s name es
    | .ok (some c) =>
      match consumeIter dec s name es with
      | .panic m => .panic m
      | .ok cs => .ok (c :: cs)

/-- Full consumption of `Query::<C, F, V>::try_iter()` for a component
shape `C`: the matching ids are materialized first (the shape contributes
`with_component(C::NAME)` to the filter), then each row is decoded on
pull. -/
def queryTryIterComponents (dec : Value → Except StorageError α) (p : JsonParser)
    (s : Store) (name : String) (filterExpr valueExpr : FilterExpression) :
    PanicOr (List α) :=
  consumeIter dec s name
    (queryEntities p s (asSqlQueryFilter (.withComponent name) filterExpr valueExpr))

/-! ## Auxiliary definitions for the statements and witnesses -/

/-- The uniqueness invariant of the `components` table: `(entity,
component)` is a primary key, so the key list has no duplicates. -/
def uniqueKeys (s : Store) : Prop :=
  (s.map (fun r => (r.entity, r.component))).Nodup

/-- The placeholder names `:c+1 … :c+k` produced by `combine_exprs`'
shared-counter rename function. -/
def rangeNames (c k : Nat) : List String :=
  (List.range k).map (fun j => ":" ++ toString (c + j + 1))

/-- A concrete structural codec for `Bool` (a stand-in for a serde
`Serialize`/`DeserializeOwned` pair), used to instantiate witnesses. -/
def boolJsonCodec : JsonCodec Bool where
  toJson := fun b => if b then "true" else "false"
  fromJson := fun s =>
    if s = "true" then .ok true
    else if s = "false" then .ok false
    else .error "invalid"

/-- The identity byte-level codec on raw byte lists. -/
def bytesBlobCodec : BlobCodec (List UInt8) where
  asBytes := id
  fromBytes := id

/-- A concrete structural codec for the unit marker type. -/
def unitJsonCodec : JsonCodec Unit where
  toJson := fun _ => "null"
  fromJson := fun s => if s = "null" then .ok () else .error "invalid"

/-! ## Helper lemmas: decimal rendering of naturals is injective -/

theorem toDigitsCore_eq_digits (fuel : Nat) : ∀ (n : Nat) (ds : List Char), 0 < n → n ≤ fuel →
    Nat.toDigitsCore 10 fuel n ds = ((Nat.digits 10 n).map Nat.digitChar).reverse ++ ds := by
  induction fuel with
  | zero => intro n ds hn hf; omega
  | succ fuel ih =>
    intro n ds hn hf
    rw [Nat.toDigitsCore]
    by_cases h : n / 10 = 0
    · simp only [h, if_true]
      rw [Nat.digits_def' (by norm_num : 1 < 10) hn, h]
      simp
    · simp only [h, if_false]
      have hpos : 0 < n / 10 := Nat.pos_of_ne_zero h
      have hle : n / 10 ≤ fuel := by
        have := Nat.div_lt_self hn (by norm_num : 1 < 10)
        omega
      rw [ih (n / 10) _ hpos hle]
      rw [Nat.digits_def' (by norm_num : 1 < 10) hn]
      simp

theorem natRepr_eq_digits (n : Nat) (hn : 0 < n) :
    Nat.repr n = (((Nat.digits 10 n).map Nat.digitChar).reverse).asString := by
  rw [Nat.repr, Nat.toDigits, toDigitsCore_eq_digits (n+1) n [] hn (by omega)]
  simp

theorem digitChar_inj_lt : ∀ a < 10, ∀ b < 10, Nat.digitChar a = Nat.digitChar b → a = b := by
  decide

theorem map_digitChar_inj : ∀ (l1 l2 : List Nat), (∀ x ∈ l1, x < 10) → (∀ x ∈ l2, x < 10) →
    l1.map Nat.digitChar = l2.map Nat.digitChar → l1 = l2 := by
  intro l1
  induction l1 with
  | nil => intro l2 _ _ h; cases l2 <;> simp_all
  | cons a as ihs =>
    intro l2 h1 h2 h
    cases l2 with
    | nil => simp_all
    | cons b bs =>
      simp only [List.map_cons, List.cons.injEq] at h
      have ha := h1 a (by simp)
      have hb := h2 b (by simp)
      have := digitChar_inj_lt a ha b hb h.1
      subst this
      rw [ihs bs (fun x hx => h1 x (by simp [hx])) (fun x hx => h2 x (by simp [hx])) h.2]

theorem natRepr_pos_digits_eq (m n : Nat) (hm : 0 < m) (hn : 0 < n)
    (h : Nat.repr m = Nat.repr n) : Nat.digits 10 m = Nat.digits 10 n := by
  rw [natRepr_eq_digits m hm, natRepr_eq_digits n hn] at h
  have hl : ((Nat.digits 10 m).map Nat.digitChar).reverse
      = ((Nat.digits 10 n).map Nat.digitChar).reverse := by
    have := congrArg String.data h
    simpa [List.asString] using this
  have hl2 : (Nat.digits 10 m).map Nat.digitChar = (Nat.digits 10 n).map Nat.digitChar := by
    have := congrArg List.reverse hl
    simpa using this
  exact map_digitChar_inj _ _ (fun x hx => Nat.digits_lt_base (by norm_num) hx)
    (fun x hx => Nat.digits_lt_base (by norm_num) hx) hl2

theorem natRepr_zero_pos_absurd (n : Nat) (hn : 0 < n) (h : Nat.repr 0 = Nat.repr n) :
    False := by
  rw [natRepr_eq_digits n hn] at h
  have h0 : Nat.repr 0 = "0" := rfl
  rw [h0] at h
  have hl : (['0'] : List Char) = ((Nat.digits 10 n).map Nat.digitChar).reverse := by
    have := congrArg String.data h
    simpa [List.asString] using this
  have hl2 : (Nat.digits 10 n).map Nat.digitChar = ['0'] := by
    have := congrArg List.reverse hl
    simpa using this.symm
  have hmap : ([0] : List Nat).map Nat.digitChar = ['0'] := by decide
  have hdig : Nat.digits 10 n = [0] :=
    map_digitChar_inj _ _ (fun x hx => Nat.digits_lt_base (by norm_num) hx)
      (by intro x hx; simp at hx; omega) (hl2.trans hmap.symm)
  have hne := Nat.getLast_digit_ne_zero 10 (Nat.pos_iff_ne_zero.mp hn)
  rw [List.getLast_congr _ (by simp) hdig] at hne
  simp at hne

theorem natRepr_injective : Function.Injective Nat.repr := by
  intro m n h
  rcases Nat.eq_zero_or_pos m with hm | hm <;> rcases Nat.eq_zero_or_pos n with hn | hn
  · omega
  · exact absurd h (fun h => natRepr_zero_pos_absurd n hn (hm ▸ h))
  · exact absurd h.symm (fun h => natRepr_zero_pos_absurd m hm (hn ▸ h))
  · have heq := natRepr_pos_digits_eq m n hm hn h
    calc m = Nat.ofDigits 10 (Nat.digits 10 m) := (Nat.ofDigits_digits 10 m).symm
    _ = Nat.ofDigits 10 (Nat.digits 10 n) := by rw [heq]
    _ = n := Nat.ofDigits_digits 10 n

theorem natToString_injective (m n : Nat) (h : toString m = toString n) : m = n :=
  natRepr_injective h

/-! ## Helper lemmas: the shared-counter rename produces distinct names -/

theorem rangeNames_succ (c k : Nat) :
    rangeNames c (k + 1) = (":" ++ toString (c + 1)) :: rangeNames (c + 1) k := by
  simp only [rangeNames, List.range_succ_eq_map, List.map_cons, List.map_map]
  congr 1
  apply List.map_congr_left
  intro j _
  exact congrArg (fun m => ":" ++ toString m) (by omega)

theorem rangeNames_append (a : Nat) : ∀ (c b : Nat),
    rangeNames c a ++ rangeNames (c + a) b = rangeNames c (a + b) := by
  induction a with
  | zero => intro c b; simp [rangeNames]
  | succ a ih =>
    intro c b
    have h2 : a + 1 + b = (a + b) + 1 := by omega
    rw [h2, rangeNames_succ c a, rangeNames_succ c (a + b)]
    simp only [List.cons_append, List.cons.injEq, true_and]
    have h1 : c + (a + 1) = (c + 1) + a := by omega
    rw [h1]
    exact ih (c + 1) b

theorem stringColon_inj (a b : Nat) (h : ":" ++ toString a = ":" ++ toString b) : a = b := by
  have hd := congrArg String.data h
  simp only [String.data_append] at hd
  have : (toString a : String).data = (toString b : String).data := by
    simpa using hd
  exact natToString_injective a b (by
    have := congrArg String.mk this
    simpa using this)

theorem rangeNames_nodup (c k : Nat) : (rangeNames c k).Nodup := by
  refine (List.nodup_range k).map_on ?_
  intro x _ y _ h
  have := stringColon_inj (c + x + 1) (c + y + 1) h
  omega

theorem rangeNames_length (c k : Nat) : (rangeNames c k).length = k := by
  simp [rangeNames]

theorem lookup_cons_eq (k a : String) (b : String) (tl : List (String × String)) :
    List.lookup k ((a, b) :: tl) = if k = a then some b else List.lookup k tl := by
  by_cases h : k = a <;> simp [List.lookup, h, Ne.symm, beq_false_of_ne]

theorem btreeInsert_lookup (kv : String × String) (k : String) :
    ∀ (m : List (String × String)),
    (btreeInsert m kv).lookup k = if k = kv.1 then some kv.2 else m.lookup k := by
  intro m
  induction m with
  | nil =>
    show List.lookup k [(kv.1, kv.2)] = _
    rw [lookup_cons_eq]
  | cons hd tl ih =>
    rw [btreeInsert]
    by_cases h1 : kv.1 < hd.1
    · simp only [h1, if_true]
      show List.lookup k ((kv.1, kv.2) :: (hd.1, hd.2) :: tl) = _
      rw [lookup_cons_eq]
    · simp only [h1, if_false]
      by_cases h2 : kv.1 = hd.1
      · rw [if_pos h2]
        show List.lookup k ((kv.1, kv.2) :: tl) = _
        rw [lookup_cons_eq]
        by_cases h : k = kv.1
        · simp [h]
        · rw [if_neg h, if_neg h]
          show _ = List.lookup k ((hd.1, hd.2) :: tl)
          rw [lookup_cons_eq, if_neg (h2 ▸ h)]
      · rw [if_neg h2]
        show List.lookup k ((hd.1, hd.2) :: btreeInsert tl kv) = _
        rw [lookup_cons_eq]
        by_cases h : k = hd.1
        · rw [if_pos h]
          have hne : ¬ k = kv.1 := fun hh => h2 (hh ▸ h)
          rw [if_neg hne]
          show _ = List.lookup k ((hd.1, hd.2) :: tl)
          rw [lookup_cons_eq, if_pos h]
        · rw [if_neg h, ih]
          by_cases hk : k = kv.1
          · simp [hk]
          · rw [if_neg hk, if_neg hk]
            show _ = List.lookup k ((hd.1, hd.2) :: tl)
            rw [lookup_cons_eq, if_neg h]

theorem btreeFold_lookup_notmem (k : String) :
    ∀ (pairs : List (String × String)) (init : List (String × String)),
    k ∉ pairs.map Prod.fst →
    (pairs.foldl btreeInsert init).lookup k = init.lookup k := by
  intro pairs
  induction pairs with
  | nil => intro init _; rfl
  | cons hd tl ih =>
    intro init hk
    simp only [List.map_cons, List.mem_cons] at hk
    push_neg at hk
    rw [List.foldl_cons, ih _ hk.2, btreeInsert_lookup, if_neg hk.1]

theorem btreeFold_lookup_mem (kv : String × String) :
    ∀ (pairs : List (String × String)) (init : List (String × String)),
    (pairs.map Prod.fst).Nodup → kv ∈ pairs →
    (pairs.foldl btreeInsert init).lookup kv.1 = some kv.2 := by
  intro pairs
  induction pairs with
  | nil => intro init _ h; simp at h
  | cons hd tl ih =>
    intro init hnd hmem
    simp only [List.map_cons, List.nodup_cons] at hnd
    rcases List.mem_cons.mp hmem with h | h
    · subst h
      rw [List.foldl_cons, btreeFold_lookup_notmem _ _ _ hnd.1,
        btreeInsert_lookup, if_pos rfl]
    · exact ih _ hnd.2 h

theorem renamePairs_spec : ∀ (phs : List (String × Value)) (c : Nat),
    (renamePairs phs c).1.map Prod.fst = phs.map Prod.fst ∧
    (renamePairs phs c).1.map Prod.snd = rangeNames c phs.length ∧
    (renamePairs phs c).2 = c + phs.length := by
  intro phs
  induction phs with
  | nil => intro c; simp [renamePairs, rangeNames]
  | cons hd tl ih =>
    intro c
    obtain ⟨ih1, ih2, ih3⟩ := ih (c + 1)
    refine ⟨?_, ?_, ?_⟩
    · simp [renamePairs, ih1]
    · simp only [renamePairs, List.map_cons, List.length_cons]
      rw [rangeNames_succ, ih2]
    · simp only [renamePairs, List.length_cons]
      rw [ih3]
      omega

theorem lookup_map_by_pairs :
    ∀ (phs : List (String × Value)) (pairs : List (String × String))
      (mp : List (String × String)),
    pairs.map Prod.fst = phs.map Prod.fst →
    (∀ kv ∈ pairs, mp.lookup kv.1 = some kv.2) →
    phs.map (fun pv => (mp.lookup pv.1).getD pv.1) = pairs.map Prod.snd := by
  intro phs
  induction phs with
  | nil => intro pairs mp hfst _; simp at hfst; simp [hfst]
  | cons hd tl ih =>
    intro pairs mp hfst hlk
    cases pairs with
    | nil => simp at hfst
    | cons p ps =>
      simp only [List.map_cons, List.cons.injEq] at hfst
      simp only [List.map_cons, List.cons.injEq]
      constructor
      · rw [← hfst.1, hlk p (by simp)]
        rfl
      · exact ih ps mp hfst.2 (fun kv hkv => hlk kv (by simp [hkv]))

theorem renameIdentifier_names (f : SqlFragment) (c : Nat)
    (hnd : (f.placeholders.map Prod.fst).Nodup) :
    (f.renameIdentifier c).1.placeholders.map Prod.fst
        = rangeNames c f.placeholders.length ∧
    (f.renameIdentifier c).2 = c + f.placeholders.length := by
  obtain ⟨h1, h2, h3⟩ := renamePairs_spec f.placeholders c
  constructor
  · show (f.placeholders.map
        (fun pv => ((btreeOfPairs (renamePairs f.placeholders c).1).lookup pv.1
          |>.getD pv.1, pv.2))).map Prod.fst = _
    rw [List.map_map]
    show f.placeholders.map
        (fun pv => ((btreeOfPairs (renamePairs f.placeholders c).1).lookup pv.1).getD pv.1) = _
    simp only [btreeOfPairs]
    rw [lookup_map_by_pairs f.placeholders (renamePairs f.placeholders c).1 _ h1
      (fun kv hkv => btreeFold_lookup_mem kv _ [] (by rw [h1]; exact hnd) hkv)]
    rw [h2]
  · exact h3

theorem combineStep_names (via : String) (acc : SqlFragment × Nat) (fr : SqlFragment)
    (m : Nat) (hacc1 : acc.1.placeholders.map Prod.fst = rangeNames 0 m)
    (hacc2 : acc.2 = m) (hfr : (fr.placeholders.map Prod.fst).Nodup) :
    (combineStep via acc fr).1.placeholders.map Prod.fst
        = rangeNames 0 (m + fr.placeholders.length) ∧
    (combineStep via acc fr).2 = m + fr.placeholders.length := by
  obtain ⟨h1, h2⟩ := renameIdentifier_names fr acc.2 hfr
  constructor
  · show (acc.1.placeholders ++ (fr.renameIdentifier acc.2).1.placeholders).map Prod.fst = _
    rw [List.map_append, hacc1, h1, hacc2]
    have := rangeNames_append m 0 fr.placeholders.length
    simpa using this
  · show (fr.renameIdentifier acc.2).2 = _
    rw [h2, hacc2]

theorem combineFold_names (via : String) :
    ∀ (rest : List SqlFragment) (acc : SqlFragment × Nat) (m : Nat),
    acc.1.placeholders.map Prod.fst = rangeNames 0 m → acc.2 = m →
    (∀ fr ∈ rest, (fr.placeholders.map Prod.fst).Nodup) →
    ∃ k, (rest.foldl (combineStep via) acc).1.placeholders.map Prod.fst = rangeNames 0 k := by
  intro rest
  induction rest with
  | nil => intro acc m h1 _ _; exact ⟨m, h1⟩
  | cons hd tl ih =>
    intro acc m h1 h2 hall
    obtain ⟨g1, g2⟩ := combineStep_names via acc hd m h1 h2 (hall hd (by simp))
    rw [List.foldl_cons]
    exact ih _ (m + hd.placeholders.length) g1 g2 (fun fr hfr => hall fr (by simp [hfr]))

theorem combineFragments_names_nodup (via : String) (frags : List SqlFragment)
    (hall : ∀ fr ∈ frags, (fr.placeholders.map Prod.fst).Nodup) :
    ((combineFragments via frags).placeholders.map Prod.fst).Nodup := by
  cases frags with
  | nil => simp [combineFragments, noneFragment]
  | cons first rest =>
    obtain ⟨h1, h2⟩ := renameIdentifier_names first 0 (hall first (by simp))
    obtain ⟨k, hk⟩ := combineFold_names via rest (first.renameIdentifier 0)
      first.placeholders.length h1 (by simpa using h2) (fun fr hfr => hall fr (by simp [hfr]))
    show (((rest.foldl (combineStep via) (first.renameIdentifier 0)).1.placeholders).map
        Prod.fst).Nodup
    rw [hk]
    exact rangeNames_nodup 0 k

mutual

theorem whereClause_placeholders_nodup : ∀ (f : FilterExpression),
    ((f.whereClause).placeholders.map Prod.fst).Nodup
  | .none => by simp [FilterExpression.whereClause, noneFragment]
  | .withComponent c => by simp [FilterExpression.whereClause]
  | .withoutComponent c => by simp [FilterExpression.whereClause]
  | .entityId id => by simp [FilterExpression.whereClause]
  | .withComponentData c v => by
    rw [FilterExpression.whereClause]
    by_cases h : v = Value.null
    · simp [h]
    · simp [h]
  | .withComponentDataRange c st en => by
    cases st <;> cases en <;> simp [FilterExpression.whereClause]
  | .and exprs =>
    combineFragments_names_nodup "and" _ (whereClauseList_placeholders_nodup exprs)
  | .or exprs =>
    combineFragments_names_nodup "or" _ (whereClauseList_placeholders_nodup exprs)

theorem whereClauseList_placeholders_nodup : ∀ (fs : List FilterExpression),
    ∀ fr ∈ FilterExpression.whereClauseList fs, ((fr.placeholders.map Prod.fst)).Nodup
  | [] => by intro fr h; simp [FilterExpression.whereClauseList] at h
  | e :: es => by
    intro fr h
    rw [FilterExpression.whereClauseList] at h
    rcases List.mem_cons.mp h with h | h
    · exact h ▸ whereClause_placeholders_nodup e
    · exact whereClauseList_placeholders_nodup es fr h

end

/-- C2: compiling any filter expression — in particular any nested
combination of `WithComponentData` and `WithComponentDataRange` leaves
under `And`/`Or` — produces a fragment whose placeholder list contains no
two placeholders with the same name: the rename through the shared
counter makes all names in the final fragment pairwise distinct (so the
structural assertion in `combine_exprs` never fires). -/
theorem sqlQuery_placeholder_names_distinct (f : FilterExpression) :
    ((f.sqlQuery).placeholders.map Prod.fst).Nodup :=
  whereClause_placeholders_nodup f

/-! ## Semantics lemmas -/

theorem exists_row_and_iff (s : Store) (e : Int) (C : Prop) :
    (∃ r ∈ s, r.entity = e ∧ C) ↔ ((∃ r ∈ s, r.entity = e) ∧ C) := by
  tauto

theorem mem_queryEntities (p : JsonParser) (s : Store) (f : FilterExpression) (e : Int) :
    e ∈ queryEntities p s f ↔ ∃ r ∈ s, r.entity = e ∧ evalWhere p s e f = true := by
  simp only [queryEntities, List.mem_dedup, List.mem_map, List.mem_filter]
  constructor
  · rintro ⟨r, ⟨hr, hev⟩, rfl⟩
    exact ⟨r, hr, rfl, hev⟩
  · rintro ⟨r, hr, rfl, hev⟩
    exact ⟨r, ⟨hr, hev⟩, rfl⟩

/-- C8: the presence algebra of the typed combinators: the conjunction
(tuple filter) of `With<A>` and `Without<A>` matches no entity; the
matching set of `Or<(With<A>, With<B>)>` is the union of the two `With`
matching sets; and the matching set of the tuple `(With<A>, With<B>)` is
their intersection. -/
theorem presence_algebra (p : JsonParser) (s : Store) (a b : String) (e : Int) :
    (e ∉ queryFilterEntities p s
        (tupleFilterExpression [withFilterExpression a, withoutFilterExpression a])) ∧
    (e ∈ queryFilterEntities p s
        (orFilterExpression [withFilterExpression a, withFilterExpression b]) ↔
      (e ∈ queryFilterEntities p s (withFilterExpression a) ∨
       e ∈ queryFilterEntities p s (withFilterExpression b))) ∧
    (e ∈ queryFilterEntities p s
        (tupleFilterExpression [withFilterExpression a, withFilterExpression b]) ↔
      (e ∈ queryFilterEntities p s (withFilterExpression a) ∧
       e ∈ queryFilterEntities p s (withFilterExpression b))) := by
  simp only [queryFilterEntities, asSqlQueryFilter, tupleFilterExpression,
    orFilterExpression, withFilterExpression, withoutFilterExpression,
    mem_queryEntities, evalWhere, evalWhereAll, evalWhereAny,
    Bool.and_true, Bool.true_and, Bool.and_eq_true, Bool.or_eq_true,
    Bool.not_eq_true']
  simp only [exists_row_and_iff]
  generalize (∃ r ∈ s, r.entity = e) = H
  refine ⟨?_, ?_, ?_⟩
  · rintro ⟨-, hA, hA'⟩
    rw [hA] at hA'
    exact absurd hA' (by simp)
  · tauto
  · tauto

/-- C10: an `And`/`Or` node with an empty child list — including one
whose members were all dropped by the simplification pass — compiles to
the trivial predicate `true`, so an empty `Or` matches every entity that
has at least one component record. -/
theorem empty_combination_matches_all (p : JsonParser) (s : Store) (e : Int) :
    FilterExpression.whereClause (.or []) = noneFragment ∧
    FilterExpression.whereClause (.and []) = noneFragment ∧
    FilterExpression.simplify (.or [.none, .none]) = .or [] ∧
    (e ∈ queryEntities p s (.or []) ↔ ∃ r ∈ s, r.entity = e) := by
  refine ⟨rfl, rfl, rfl, ?_⟩
  rw [mem_queryEntities]
  simp [evalWhere, evalWhereAny]

/-! ## Range boundary lemmas (C5) -/

theorem compareBytes_self : ∀ (b : List UInt8), compareBytes b b = .eq
  | [] => rfl
  | u :: us => by
    have h : compare u u = Ordering.eq := by simp [compare, compareOfLessAndEq]
    rw [compareBytes, h]
    exact compareBytes_self us

theorem sqliteCompare_self (v : Value) : sqliteCompare v v = .eq := by
  cases v with
  | null => simp [sqliteCompare, Value.numValue, Value.kindRank, compare, compareOfLessAndEq]
  | integer i => simp [sqliteCompare, Value.numValue, compare, compareOfLessAndEq]
  | real r => simp [sqliteCompare, Value.numValue, compare, compareOfLessAndEq]
  | text s => simp [sqliteCompare, Value.numValue, compare, compareOfLessAndEq]
  | blob b => simp [sqliteCompare, Value.numValue, compareBytes_self]

theorem sqliteGe_self (v : Value) (h : v.isNull = false) : sqliteGe v v = true := by
  simp [sqliteGe, h, sqliteCompare_self]

theorem sqliteLe_self (v : Value) (h : v.isNull = false) : sqliteLe v v = true := by
  simp [sqliteLe, h, sqliteCompare_self]

theorem evalWhere_rangeFrom (p : JsonParser) (s : Store) (e : Int) (c : String)
    (start : Value) (h : start ≠ .null) :
    evalWhere p s e (.withComponentDataRange c start .null) =
      s.any (fun r => r.entity == e && r.component == c &&
        optGe (extractOrd p r.data) (extractOrd p start)) := by
  cases start with
  | null => exact absurd rfl h
  | integer i => rfl
  | real r => rfl
  | text t => rfl
  | blob b => rfl

theorem evalWhere_rangeTo (p : JsonParser) (s : Store) (e : Int) (c : String)
    (stop : Value) (h : stop ≠ .null) :
    evalWhere p s e (.withComponentDataRange c .null stop) =
      s.any (fun r => r.entity == e && r.component == c &&
        optLe (extractOrd p r.data) (extractOrd p stop)) := by
  cases stop with
  | null => exact absurd rfl h
  | integer i => rfl
  | real r => rfl
  | text t => rfl
  | blob b => rfl

theorem evalWhere_rangeBoth (p : JsonParser) (s : Store) (e : Int) (c : String)
    (start stop : Value) (hs : start ≠ .null) (he : stop ≠ .null) :
    evalWhere p s e (.withComponentDataRange c start stop) =
      s.any (fun r => r.entity == e && r.component == c &&
        (optGe (extractOrd p r.data) (extractOrd p start) &&
         optLe (extractOrd p r.data) (extractOrd p stop))) := by
  cases start with
  | null => exact absurd rfl hs
  | integer i => cases stop with
    | null => exact absurd rfl he
    | integer j => rfl
    | real r => rfl
    | text t => rfl
    | blob b => rfl
  | real r => cases stop with
    | null => exact absurd rfl he
    | integer j => rfl
    | real r2 => rfl
    | text t => rfl
    | blob b => rfl
  | text t => cases stop with
    | null => exact absurd rfl he
    | integer j => rfl
    | real r => rfl
    | text t2 => rfl
    | blob b => rfl
  | blob b => cases stop with
    | null => exact absurd rfl he
    | integer j => rfl
    | real r => rfl
    | text t => rfl
    | blob b2 => rfl

theorem evalWhere_asSqlValue (p : JsonParser) (s : Store) (e : Int)
    (v : FilterExpression) :
    evalWhere p s e (asSqlQueryFilter .none .none v) = evalWhere p s e v := by
  simp [asSqlQueryFilter, evalWhere, evalWhereAll]

theorem mem_queryEntities_of_row (p : JsonParser) (s : Store) (r : Row) (hr : r ∈ s)
    (f : FilterExpression) (hev : evalWhere p s r.entity f = true) :
    r.entity ∈ queryEntities p s f :=
  (mem_queryEntities p s f r.entity).mpr ⟨r, hr, rfl, hev⟩

theorem any_of_row (s : Store) (r : Row) (hr : r ∈ s) (q : Row → Bool)
    (h : q r = true) : s.any q = true :=
  List.any_eq_true.mpr ⟨r, hr, h⟩

theorem extractOrd_nonnull_not_null (p : JsonParser) (x : Value)
    (hex : extractOrd p .null = some x) (hnn : x.isNull = false) : False := by
  have : x = Value.null := by
    have h0 : extractOrd p Value.null = some Value.null := rfl
    rw [h0] at hex
    exact (Option.some.injEq _ _ ▸ hex).symm
  rw [this] at hnn
  simp [Value.isNull] at hnn

/-- C5 counterexample: the claim fails as stated.  Store a blob-valued
component and filter with a start-only range whose bound is the identical
blob: the stored value is exactly equal to the range's inclusive bound,
yet the entity is not matched, because `velodb_extract_data` extracts
blobs as null and a null comparison never matches. -/
theorem range_boundary_counterexample :
    (1 : Int) ∉ queryEntities (fun _ => .error "") [⟨1, "X", .blob [0], 3⟩]
      (asSqlQueryFilter .none .none (rangeFromFilterExpression "X" (.blob [0]))) := by
  decide

/-- C5 (amended): for every component range filter, an entity whose
stored value is bit-for-bit equal to a bound of the range is included
provided the bound's extracted ordinal is non-null (blob bounds and
JSON-null bounds extract as null and never match) and, for a
fully-bounded range, the stored value also satisfies the opposite bound
under the extracted-ordinal comparison; a half-open range with only a
start bound matches every entity holding the component with a row whose
extracted value compares greater than or equal to the start's extracted
value — it excludes nothing above the start. -/
theorem range_boundary_amended (p : JsonParser) (s : Store) (c : String) (r : Row)
    (hr : r ∈ s) (hc : r.component = c) :
    (∀ start x, r.data = start → extractOrd p start = some x → x.isNull = false →
      r.entity ∈ queryEntities p s
        (asSqlQueryFilter .none .none (rangeFromFilterExpression c start))) ∧
    (∀ start x y, extractOrd p r.data = some x → extractOrd p start = some y →
      sqliteGe x y = true →
      r.entity ∈ queryEntities p s
        (asSqlQueryFilter .none .none (rangeFromFilterExpression c start))) ∧
    (∀ stop x, r.data = stop → extractOrd p stop = some x → x.isNull = false →
      r.entity ∈ queryEntities p s
        (asSqlQueryFilter .none .none (rangeToFilterExpression c stop))) ∧
    (∀ start stop x y, r.data = start → extractOrd p start = some x →
      x.isNull = false → extractOrd p stop = some y → sqliteLe x y = true →
      r.entity ∈ queryEntities p s
        (asSqlQueryFilter .none .none (rangeFilterExpression c start stop))) ∧
    (∀ start stop x y, r.data = stop → extractOrd p stop = some y →
      y.isNull = false → extractOrd p start = some x → sqliteGe y x = true →
      r.entity ∈ queryEntities p s
        (asSqlQueryFilter .none .none (rangeFilterExpression c start stop))) := by
  have hnotnull : ∀ (v : Value) (x : Value), extractOrd p v = some x →
      x.isNull = false → v ≠ Value.null := by
    intro v x hex hnn hv
    exact extractOrd_nonnull_not_null p x (hv ▸ hex) hnn
  refine ⟨?_, ?_, ?_, ?_, ?_⟩
  · intro start x hdata hex hnn
    apply mem_queryEntities_of_row p s r hr
    rw [evalWhere_asSqlValue, rangeFromFilterExpression,
      evalWhere_rangeFrom p s r.entity c start (hnotnull start x hex hnn)]
    apply any_of_row s r hr
    simp only [hc, hdata, hex, beq_self_eq_true, Bool.and_true, Bool.true_and]
    simp [optGe, sqliteGe_self x hnn]
  · intro start x y hex hey hge
    by_cases hstart : start = Value.null
    · rw [hstart] at hey
      have : y = Value.null := by
        have h0 : extractOrd p Value.null = some Value.null := rfl
        rw [h0] at hey
        exact (Option.some.injEq _ _ ▸ hey).symm
      rw [this] at hge
      simp [sqliteGe, Value.isNull] at hge
    · apply mem_queryEntities_of_row p s r hr
      rw [evalWhere_asSqlValue, rangeFromFilterExpression,
        evalWhere_rangeFrom p s r.entity c start hstart]
      apply any_of_row s r hr
      simp [hc, hex, hey, optGe, hge]
  · intro stop x hdata hex hnn
    apply mem_queryEntities_of_row p s r hr
    rw [evalWhere_asSqlValue, rangeToFilterExpression,
      evalWhere_rangeTo p s r.entity c stop (hnotnull stop x hex hnn)]
    apply any_of_row s r hr
    simp only [hc, hdata, hex, beq_self_eq_true, Bool.and_true, Bool.true_and]
    simp [optLe, sqliteLe_self x hnn]
  · intro start stop x y hdata hex hnn hey hle
    have hstop : stop ≠ Value.null := by
      intro hv
      rw [hv] at hey
      have h0 : extractOrd p Value.null = some Value.null := rfl
      rw [h0] at hey
      have : y = Value.null := (Option.some.injEq _ _ ▸ hey).symm
      rw [this] at hle
      simp [sqliteLe, Value.isNull] at hle
    apply mem_queryEntities_of_row p s r hr
    rw [evalWhere_asSqlValue, rangeFilterExpression,
      evalWhere_rangeBoth p s r.entity c start stop (hnotnull start x hex hnn) hstop]
    apply any_of_row s r hr
    simp [hc, hdata, hex, hey, optGe, optLe, sqliteGe_self x hnn, hle]
  · intro start stop x y hdata hey hnn hex hge
    have hstart : start ≠ Value.null := by
      intro hv
      rw [hv] at hex
      have h0 : extractOrd p Value.null = some Value.null := rfl
      rw [h0] at hex
      have : x = Value.null := (Option.some.injEq _ _ ▸ hex).symm
      rw [this] at hge
      simp [sqliteGe, Value.isNull] at hge
    apply mem_queryEntities_of_row p s r hr
    rw [evalWhere_asSqlValue, rangeFilterExpression,
      evalWhere_rangeBoth p s r.entity c start stop hstart
        (hnotnull stop y hey hnn)]
    apply any_of_row s r hr
    simp [hc, hdata, hex, hey, optGe, optLe, sqliteLe_self y hnn, hge]

/-- Witness for the amended range-boundary theorem: an integer-valued
component equal to the start bound of a start-only range is matched. -/
theorem range_boundary_amended_witness :
    (1 : Int) ∈ queryEntities (fun _ => Except.error "") [⟨1, "X", .integer 5, 0⟩]
      (asSqlQueryFilter .none .none (rangeFromFilterExpression "X" (.integer 5))) :=
  (range_boundary_amended (fun _ => Except.error "") [⟨1, "X", .integer 5, 0⟩] "X"
    ⟨1, "X", .integer 5, 0⟩ (by simp) rfl).1 (.integer 5) (.integer 5) rfl rfl rfl

/-! ## Extraction function and codec round-trips (C6, C7) -/

/-- C6: the custom scalar extraction function returns the value itself
for null, integer and real inputs, null for blob inputs, and for text
inputs the JSON-decoded scalar (booleans and numbers become natively
comparable integers/reals rather than serialized text). -/
theorem extract_ordinal_spec (p : JsonParser) :
    velodb_extract_data p .null = .ok .null ∧
    (∀ i, velodb_extract_data p (.integer i) = .ok (.integer i)) ∧
    (∀ r, velodb_extract_data p (.real r) = .ok (.real r)) ∧
    (∀ b, velodb_extract_data p (.blob b) = .ok .null) ∧
    (∀ t j, p t = .ok j → velodb_extract_data p (.text t) = .ok (jsonToSqliteValue j)) := by
  refine ⟨rfl, fun i => rfl, fun r => rfl, fun b => rfl, fun t j h => ?_⟩
  simp [velodb_extract_data, h, Except.map]

/-- Witness: a JSON `true` text extracts to the integer 1. -/
theorem extract_ordinal_spec_witness :
    velodb_extract_data (fun _ => Except.ok (JsonValue.bool true)) (.text "true")
      = .ok (.integer 1) :=
  (extract_ordinal_spec (fun _ => Except.ok (JsonValue.bool true))).2.2.2.2 "true"
    (JsonValue.bool true) rfl

/-- C7: for every storage strategy, decoding the encoding of a value
yields the value back (given the type's own serde/byte conversions are
mutually inverse, which is what makes a value of the type valid); the
null-marker strategy additionally rejects every non-null stored input
with a `StorageError`. -/
theorem storage_roundtrip {α β γ : Type} (cj : JsonCodec α) (cb : BlobCodec β)
    (cn : JsonCodec γ)
    (hj : ∀ v : α, cj.fromJson (cj.toJson v) = .ok v)
    (hb : ∀ v : β, cb.fromBytes (cb.asBytes v) = v)
    (hn : ∀ v : γ, cn.fromJson "null" = .ok v) :
    (∀ v : α, (JsonStorage.to_rusqlite cj v).bind (JsonStorage.from_rusqlite cj)
      = .ok v) ∧
    (∀ v : β, (BlobStorage.to_rusqlite cb v).bind (BlobStorage.from_rusqlite cb)
      = .ok v) ∧
    (∀ v : γ, (NullStorage.to_rusqlite (α := γ) v).bind (NullStorage.from_rusqlite cn)
      = .ok v) ∧
    (∀ w : Value, w ≠ .null → ∃ err, NullStorage.from_rusqlite cn w = .error err) := by
  refine ⟨?_, ?_, ?_, ?_⟩
  · intro v
    simp [JsonStorage.to_rusqlite, JsonStorage.from_rusqlite, Except.bind, hj v,
      Except.mapError]
  · intro v
    simp [BlobStorage.to_rusqlite, BlobStorage.from_rusqlite, Except.bind, hb v]
  · intro v
    simp [NullStorage.to_rusqlite, NullStorage.from_rusqlite, Except.bind, hn v,
      Except.mapError]
  · intro w hw
    cases w with
    | null => exact absurd rfl hw
    | integer i => exact ⟨_, rfl⟩
    | real r => exact ⟨_, rfl⟩
    | text t => exact ⟨_, rfl⟩
    | blob b => exact ⟨_, rfl⟩

/-- Witness: concrete round-trips through the three strategies, and the
null strategy rejecting an integer. -/
theorem storage_roundtrip_witness :
    ((JsonStorage.to_rusqlite boolJsonCodec true).bind
        (JsonStorage.from_rusqlite boolJsonCodec) = .ok true) ∧
    ((BlobStorage.to_rusqlite bytesBlobCodec [7]).bind
        (BlobStorage.from_rusqlite bytesBlobCodec) = .ok [7]) ∧
    ((NullStorage.to_rusqlite (α := Unit) ()).bind
        (NullStorage.from_rusqlite unitJsonCodec) = .ok ()) ∧
    (∃ err, NullStorage.from_rusqlite unitJsonCodec (.integer 3) = .error err) :=
  have h := storage_roundtrip boolJsonCodec bytesBlobCodec unitJsonCodec
    (fun v => by cases v <;> rfl) (fun _ => rfl) (fun _ => rfl)
  ⟨h.1 true, h.2.1 [7], h.2.2.1 (), h.2.2.2 (.integer 3) (by simp)⟩

/-! ## Storage-strategy selection of the derive macro (C3) -/

theorem extractAttributesStep_storage_ne_null (a : Attributes) (m : AttrMeta)
    (a' : Attributes) (h : extractAttributesStep a m = .ok a')
    (ha : a.storage ≠ .null) : a'.storage ≠ .null := by
  cases m with
  | storageAttr v =>
    rw [extractAttributesStep] at h
    by_cases h1 : v = "json"
    · rw [if_pos h1] at h
      injection h with h
      rw [← h]
      simp
    · rw [if_neg h1] at h
      by_cases h2 : v = "blob"
      · rw [if_pos h2] at h
        injection h with h
        rw [← h]
        simp
      · rw [if_neg h2] at h
        exact absurd h (by simp)
  | nameAttr v =>
    rw [extractAttributesStep] at h
    injection h with h
    rw [← h]
    exact ha
  | otherAttr ident =>
    rw [extractAttributesStep] at h
    exact absurd h (by simp)

theorem foldAttr_storage_ne_null : ∀ (metas : List AttrMeta) (init : Attributes),
    init.storage ≠ .null → ∀ (attrs : Attributes),
    metas.foldlM extractAttributesStep init = .ok attrs → attrs.storage ≠ .null := by
  intro metas
  induction metas with
  | nil =>
    intro init hinit attrs h
    simp [List.foldlM, pure, Except.pure] at h
    rw [← h]
    exact hinit
  | cons m ms ih =>
    intro init hinit attrs h
    rw [List.foldlM_cons] at h
    cases hstep : extractAttributesStep init m with
    | error msg =>
      rw [hstep] at h
      simp [Bind.bind, Except.bind] at h
    | ok a' =>
      rw [hstep] at h
      simp only [Bind.bind, Except.bind] at h
      exact ih a' (extractAttributesStep_storage_ne_null init m a' hstep hinit) attrs h

theorem extractAttributes_storage_ne_null (attr? : Option (List AttrMeta))
    (attrs : Attributes) (h : extractAttributes attr? = .ok attrs) :
    attrs.storage ≠ .null := by
  cases attr? with
  | none =>
    rw [extractAttributes] at h
    injection h with h
    rw [← h]
    simp [Attributes.default]
  | some metas =>
    rw [extractAttributes] at h
    exact foldAttr_storage_ne_null metas Attributes.default (by simp [Attributes.default])
      attrs h

/-- C3 counterexample: an explicit `#[component(storage = "json")]`
override on a unit struct is ignored — the derive still selects the
null-marker strategy, contradicting the claim's "unless the caller
explicitly overrides the storage choice". -/
theorem null_storage_override_counterexample :
    selectStorage ⟨.struc .unit, some [.storageAttr "json"]⟩ = .ok Storage.null ∧
    Storage.null ≠ Storage.json :=
  ⟨rfl, by simp⟩

/-- C3 (amended): the derive selects the null-marker strategy exactly
when the input is a unit struct, regardless of any explicit storage
override (the unit-struct rule runs after attribute extraction and
overwrites it; `extract_attributes` itself can never yield the null
strategy); when selected, encoding always produces null and decoding
accepts only null, rejecting any non-null stored value with a
`StorageError`. -/
theorem null_storage_selection_amended (input : DeriveInput) {γ : Type}
    (cn : JsonCodec γ) (u : γ) (attrs : Attributes)
    (hattrs : extractAttributes input.componentAttr = .ok attrs)
    (hnull : cn.fromJson "null" = .ok u) :
    (selectStorage input = .ok Storage.null ↔ input.data = .struc .unit) ∧
    (∀ v : γ, NullStorage.to_rusqlite v = .ok Value.null) ∧
    (NullStorage.from_rusqlite cn .null = .ok u) ∧
    (∀ w : Value, w ≠ .null → ∃ err, NullStorage.from_rusqlite cn w = .error err) := by
  refine ⟨?_, fun v => rfl, ?_, ?_⟩
  · have hsel : selectStorage input = (match input.data with
        | .struc .unit => pure Storage.null
        | _ => pure attrs.storage) := by
      rw [selectStorage, hattrs]
      rfl
    obtain ⟨data, attr⟩ := input
    cases data with
    | struc fields =>
      cases fields with
      | unit => simp [hsel, pure, Except.pure]
      | named n =>
        rw [hsel]
        simp only [pure, Except.pure]
        constructor
        · intro h
          injection h with h
          exact absurd h (extractAttributes_storage_ne_null attr attrs hattrs)
        · intro h
          exact absurd h (by simp)
      | unnamed n =>
        rw [hsel]
        simp only [pure, Except.pure]
        constructor
        · intro h
          injection h with h
          exact absurd h (extractAttributes_storage_ne_null attr attrs hattrs)
        · intro h
          exact absurd h (by simp)
    | enum =>
      rw [hsel]
      simp only [pure, Except.pure]
      constructor
      · intro h
        injection h with h
        exact absurd h (extractAttributes_storage_ne_null attr attrs hattrs)
      · intro h
        exact absurd h (by simp)
    | union =>
      rw [hsel]
      simp only [pure, Except.pure]
      constructor
      · intro h
        injection h with h
        exact absurd h (extractAttributes_storage_ne_null attr attrs hattrs)
      · intro h
        exact absurd h (by simp)
  · simp [NullStorage.from_rusqlite, hnull, Except.mapError]
  · intro w hw
    cases w with
    | null => exact absurd rfl hw
    | integer i => exact ⟨_, rfl⟩
    | real r => exact ⟨_, rfl⟩
    | text t => exact ⟨_, rfl⟩
    | blob b => exact ⟨_, rfl⟩

/-- Witness: the null strategy is selected for a plain unit struct, and
its codec behaves as stated. -/
theorem null_storage_selection_amended_witness :
    selectStorage ⟨.struc .unit, Option.none⟩ = .ok Storage.null ∧
    NullStorage.from_rusqlite unitJsonCodec .null = .ok () :=
  have h := null_storage_selection_amended ⟨.struc .unit, Option.none⟩ unitJsonCodec ()
    Attributes.default rfl rfl
  ⟨h.1.mpr rfl, h.2.2.1⟩

/-! ## Attach no-op and id allocation (C1, C9) -/

theorem row_data_unique (s : Store) (hu : uniqueKeys s) (e : Int) (c : String)
    (r : Row) (hfind : findRow s e c = some r) (r' : Row) (hr' : r' ∈ s)
    (hkey : (r'.entity == e && r'.component == c) = true) : r' = r := by
  rw [findRow] at hfind
  have hr : r ∈ s := List.mem_of_find?_eq_some hfind
  have hkeyr := List.find?_some hfind
  simp only [Bool.and_eq_true, beq_iff_eq] at hkey hkeyr
  exact List.inj_on_of_nodup_map hu hr' hr
    (by simp [hkey.1, hkey.2, hkeyr.1, hkeyr.2])

/-- C1 (amended): the existing-entity attach (`Entity::try_attach`, whose
upsert carries `where data is not excluded.data`) is a no-op when the
incoming value equals the stored value bit-for-bit: the store — and in
particular the row's `last_modified` — is unchanged.  (The new-entity
attach path lacks that guard and rewrites the row; see the
counterexample.) -/
theorem attach_noop_preserves_row (now : Nat) (s : Store) (e : Int) (c : String)
    (v : Value) (r : Row) (hu : uniqueKeys s) (hfind : findRow s e c = some r)
    (hdata : r.data = v) :
    entityAttachRow now s e c v = s := by
  simp only [entityAttachRow, hfind]
  have hcongr : ∀ r' ∈ s, (if (r'.entity == e && r'.component == c) = true then
      (if r'.data ≠ v then { r' with data := v, lastModified := now } else r')
      else r') = id r' := by
    intro r' hr'
    by_cases hkey : (r'.entity == e && r'.component == c) = true
    · rw [if_pos hkey]
      have : r' = r := row_data_unique s hu e c r hfind r' hr' hkey
      rw [this, hdata]
      simp
    · rw [if_neg hkey]
      rfl
  rw [List.map_congr_left hcongr, List.map_id]

/-- C1 counterexample: the claim fails for the new-entity attach.  Its
upsert (`on conflict … do update set data = excluded.data`, with no
`where data is not excluded.data` guard) always writes the row on
conflict, so attaching the bit-identical value `integer 1` to the
existing row `(100, "A")` at time 7 refreshes `last_modified` from 5 to
7. -/
theorem newEntity_attach_same_value_counterexample :
    (newEntityAttachRow 7 [⟨100, "A", .integer 1, 5⟩] (some 100) "A" (.integer 1)).1
      = [⟨100, "A", .integer 1, 7⟩] ∧ (7 : Nat) ≠ 5 :=
  ⟨rfl, by decide⟩

/-- Witness: a bit-identical write through the guarded upsert leaves the
store untouched. -/
theorem attach_noop_preserves_row_witness :
    entityAttachRow 9 [⟨1, "A", .integer 2, 4⟩] 1 "A" (.integer 2)
      = [⟨1, "A", .integer 2, 4⟩] :=
  attach_noop_preserves_row 9 [⟨1, "A", .integer 2, 4⟩] 1 "A" (.integer 2)
    ⟨1, "A", .integer 2, 4⟩ (by simp [uniqueKeys]) rfl rfl

theorem maxEntity_none_iff (s : Store) : maxEntity s = none ↔ s = [] := by
  cases s <;> simp [maxEntity]

theorem le_maxEntity : ∀ (s : Store) (r : Row), r ∈ s → ∀ m, maxEntity s = some m →
    r.entity ≤ m := by
  intro s
  induction s with
  | nil => simp
  | cons hd tl ih =>
    intro r hr m hm
    rw [maxEntity] at hm
    injection hm with hm
    rcases List.mem_cons.mp hr with h | h
    · subst h
      cases htl : maxEntity tl with
      | none => rw [htl] at hm; simp at hm; omega
      | some m' =>
        rw [htl] at hm
        simp at hm
        omega
    · cases htl : maxEntity tl with
      | none =>
        rw [(maxEntity_none_iff tl).mp htl] at h
        simp at h
      | some m' =>
        have := ih r h m' htl
        rw [htl] at hm
        simp at hm
        omega

theorem findRow_alloc_none (s : Store) (c : String) :
    findRow s (allocEntityId s) c = Option.none := by
  rw [findRow, List.find?_eq_none]
  intro r hr
  cases hm : maxEntity s with
  | none =>
    rw [(maxEntity_none_iff s).mp hm] at hr
    simp at hr
  | some m =>
    have hle := le_maxEntity s r hr m hm
    simp only [allocEntityId, hm, Bool.and_eq_true, beq_iff_eq, not_and]
    intro hcontra
    omega

theorem newEntityAttachRow_none_spec (now : Nat) (s : Store) (c : String) (v : Value) :
    newEntityAttachRow now s Option.none c v
      = (s ++ [⟨allocEntityId s, c, v, now⟩], allocEntityId s) := by
  simp [newEntityAttachRow, findRow_alloc_none s c]

theorem newEntityAttachRow_some_snd (now : Nat) (s : Store) (eid : Int) (c : String)
    (v : Value) : (newEntityAttachRow now s (some eid) c v).2 = eid := by
  cases h : findRow s eid c <;> simp [newEntityAttachRow, h]

theorem newEntityFold_keeps_eid (now : Nat) :
    ∀ (bundle : List (String × Option Value)) (s : Store) (eid : Int),
    (bundle.foldl (newEntityAttachStep now) (s, some eid)).2 = some eid := by
  intro bundle
  induction bundle with
  | nil => intro s eid; rfl
  | cons cd rest ih =>
    intro s eid
    rw [List.foldl_cons]
    obtain ⟨cname, d⟩ := cd
    cases d with
    | none => exact ih s eid
    | some v =>
      have hstep : newEntityAttachStep now (s, some eid) (cname, some v)
          = ((newEntityAttachRow now s (some eid) cname v).1, some eid) := by
        simp [newEntityAttachStep, newEntityAttachRow_some_snd]
      rw [hstep]
      exact ih _ eid

/-- C9: when the caller supplies no entity id, the new-entity attach
allocates `max(existing entity id) + 1` — or the fixed base 100 when the
table is empty — and that id is both written with the first bundle member
(one insert yields the new row and returns the id) and reused for every
later member of the bundle. -/
theorem newEntity_alloc_spec (now : Nat) (s : Store) (c : String) (v : Value)
    (rest : List (String × Option Value)) :
    (s = [] → allocEntityId s = 100) ∧
    (∀ m, maxEntity s = some m → allocEntityId s = m + 1) ∧
    (newEntityAttachRow now s Option.none c v
      = (s ++ [⟨allocEntityId s, c, v, now⟩], allocEntityId s)) ∧
    ((newEntityAttach now s ((c, some v) :: rest)).2 = some (allocEntityId s)) := by
  refine ⟨?_, ?_, newEntityAttachRow_none_spec now s c v, ?_⟩
  · intro h; subst h; rfl
  · intro m hm; simp [allocEntityId, hm]
  · rw [newEntityAttach, List.foldl_cons]
    have hstep : newEntityAttachStep now (s, Option.none) (c, some v)
        = (s ++ [⟨allocEntityId s, c, v, now⟩], some (allocEntityId s)) := by
      simp [newEntityAttachStep, newEntityAttachRow_none_spec now s c v]
    rw [hstep]
    exact newEntityFold_keeps_eid now rest _ _

/-- Witness: allocation at the empty store yields 100; with an existing
entity 100 it yields 101; the bundle attach returns the allocated id. -/
theorem newEntity_alloc_spec_witness :
    allocEntityId ([] : Store) = 100 ∧
    allocEntityId [⟨100, "A", .null, 0⟩] = 101 ∧
    (newEntityAttach 3 [] [("B", some (.integer 1))]).2 = some 100 :=
  have h0 := newEntity_alloc_spec 3 ([] : Store) "B" (.integer 1) []
  have h1 := newEntity_alloc_spec 3 [(⟨100, "A", .null, 0⟩ : Row)] "B" (.integer 1) []
  ⟨h0.1 rfl, h1.2.1 100 rfl, h0.2.2.2⟩

/-! ## Decode failures on the read paths (C4) -/

/-- C4 counterexample: the claim fails for the query iteration path.
With one entity whose stored value is a blob while the component uses the
JSON strategy, consuming `try_iter`'s result sequence panics (its
`from_entity` decodes through the infallible `Entity::component` wrapper)
instead of returning the typed storage error. -/
theorem try_iter_decode_panics_counterexample :
    queryTryIterComponents (JsonStorage.from_rusqlite unitJsonCodec)
      (fun _ => .error "") [⟨1, "C", .blob [], 0⟩] "C" .none .none
      = .panic "Failed to get Component C" := rfl

/-- C4 (amended): reading a component whose stored value does not decode
under its storage strategy through `try_component` surfaces the typed
`StorageError` (wrapped in the crate error) and does not abort; each
storage strategy rejects every stored value of the wrong kind; but
consuming a query's `try_iter` result sequence decodes rows through the
infallible wrapper, so a decode failure there panics rather than
surfacing the error. -/
theorem decode_error_typed_on_read {α : Type} (dec : Value → Except StorageError α)
    (s : Store) (e : Int) (name : String) (r : Row) (err : StorageError)
    (hfind : findRow s e name = some r) (hdec : dec r.data = .error err) :
    tryComponent dec s e name = .error (.componentStorage err) ∧
    (∀ (β : Type) (cj : JsonCodec β) (w : Value), w.kind ≠ .text →
      ∃ e2, JsonStorage.from_rusqlite cj w = .error e2) ∧
    (∀ (β : Type) (cb : BlobCodec β) (w : Value), w.kind ≠ .blob →
      ∃ e2, BlobStorage.from_rusqlite cb w = .error e2) ∧
    (∀ (β : Type) (cj : JsonCodec β) (w : Value), w.kind ≠ .null →
      ∃ e2, NullStorage.from_rusqlite cj w = .error e2) ∧
    (∀ ids : List Int, e ∈ ids → ∃ m, consumeIter dec s name ids = .panic m) := by
  have h1 : tryComponent dec s e name = .error (.componentStorage err) := by
    simp [tryComponent, hfind, hdec]
  refine ⟨h1, ?_, ?_, ?_, ?_⟩
  · intro β cj w hw
    cases w with
    | text t => exact absurd rfl hw
    | null => exact ⟨_, rfl⟩
    | integer i => exact ⟨_, rfl⟩
    | real r => exact ⟨_, rfl⟩
    | blob b => exact ⟨_, rfl⟩
  · intro β cb w hw
    cases w with
    | blob b => exact absurd rfl hw
    | null => exact ⟨_, rfl⟩
    | integer i => exact ⟨_, rfl⟩
    | real r => exact ⟨_, rfl⟩
    | text t => exact ⟨_, rfl⟩
  · intro β cj w hw
    cases w with
    | null => exact absurd rfl hw
    | integer i => exact ⟨_, rfl⟩
    | real r => exact ⟨_, rfl⟩
    | text t => exact ⟨_, rfl⟩
    | blob b => exact ⟨_, rfl⟩
  · have hpanic : componentUnwrap dec s e name
        = .panic ("Failed to get Component " ++ name) := by
      simp [componentUnwrap, h1]
    intro ids he
    induction ids with
    | nil => simp at he
    | cons hd tl ih =>
      rcases List.mem_cons.mp he with h | h
      · subst h
        exact ⟨_, by rw [consumeIter, hpanic]⟩
      · obtain ⟨m, hm⟩ := ih h
        cases hcu : componentUnwrap dec s hd name with
        | panic msg => exact ⟨msg, by rw [consumeIter, hcu]⟩
        | ok o =>
          cases o with
          | none => exact ⟨m, by rw [consumeIter, hcu]; exact hm⟩
          | some cc => exact ⟨m, by rw [consumeIter, hcu, hm]⟩

/-- Witness: the typed error surfaces through `try_component` and the
iterator consumption panics, at the concrete blob-valued store. -/
theorem decode_error_typed_on_read_witness :
    tryComponent (JsonStorage.from_rusqlite unitJsonCodec) [⟨1, "C", .blob [], 0⟩] 1 "C"
      = .error (.componentStorage
          ⟨"Unexpected type " ++ toString (repr (Value.blob []))⟩) ∧
    (∃ m, consumeIter (JsonStorage.from_rusqlite unitJsonCodec)
      [⟨1, "C", .blob [], 0⟩] "C" [1] = .panic m) :=
  have h := decode_error_typed_on_read (JsonStorage.from_rusqlite unitJsonCodec)
    [⟨1, "C", .blob [], 0⟩] 1 "C" ⟨1, "C", .blob [], 0⟩
    ⟨"Unexpected type " ++ toString (repr (Value.blob []))⟩ rfl rfl
  ⟨h.1, h.2.2.2.2 [1] (by simp)⟩

end Ecsdb
